import Mathlib

/-!
# Verification of the sunlight partial-tile compactor and storage backends

Shallow embedding of:
* `cmd/partial-aftersun` (the tree-walking compactor `cleanDir`, the
  `overrideImmutable` gate and the `main` per-log loop),
* `internal/ctlog/local.go` (`LocalBackend.Upload` / `Fetch` / `Discard`
  and `compareFile`),
* `internal/ctlog/s3.go` (`S3Backend.Upload` with hedged writes).

Modelling conventions:
* File names are `List Char` (`Name`), filesystem paths are lists of path
  segments (`FPath`).  Real directory entries never contain `'/'`, so the
  segment list determines the joined `'/'`-separated string and all of the
  Go string operations on joined paths (`strings.Cut` on a separator that
  contains `'/'`, `filepath.Join`, `strings.TrimSuffix` on the last
  segment) are translated segment-wise.
* Go `int64` arithmetic is modelled on `Int`; the one place where 64-bit
  wrap-around is reachable (the `int64(1) << (TileHeight*(max(0,L)+1))`
  tile-size computation) goes through `goShlOne`, which implements the Go
  shift semantics exactly.  Division is Go division (truncation toward
  zero, `Int.tdiv`); Go panics on division by zero, which the compactor
  model surfaces as the dedicated result `CErr.divByZero`.
* `context.Context` cancellation is a pure oracle `Ctx : Nat -> Bool`
  giving the answer of the k-th `ctx.Err()` call; the state carries the
  count of checks performed so far.
* The walk is fuel-indexed so that it is structurally recursive; running
  out of fuel yields the artificial result `CErr.outOfFuel`, never
  produced when the fuel exceeds the directory depth.
-/

/-- A file or directory name: the characters of one path segment. -/
abbrev Name := List Char

/-- A filesystem path relative to the log root, as a list of segments. -/
abbrev FPath := List Name

/-- The two characters of the partial-tile directory suffix ".p". -/
def dotP : Name := ['.', 'p']

/-- Go `strings.HasPrefix(name, "x")`: the fan-out traversal marker test. -/
def startsWithX (n : Name) : Bool :=
  match n with
  | c :: _ => c == 'x'
  | [] => false

/-- Does the segment end with the two characters ".p"? -/
def endsDotP (n : Name) : Bool :=
  match n.reverse with
  | c1 :: c2 :: _ => c1 == 'p' && c2 == '.'
  | _ => false

/-- Drop a trailing ".p" (the caller checks `endsDotP` first). -/
def stripDotP (n : Name) : Name := n.take (n.length - 2)

/-- Go `strings.CutSuffix(name, ".p")`, returning the clipped name on success. -/
def cutSuffixDotP (n : Name) : Option Name :=
  if endsDotP n then some (stripDotP n) else none

/-- Go `strings.TrimSuffix(name, ".p")` applied to one segment. -/
def trimSuffixDotP (n : Name) : Name :=
  if endsDotP n then stripDotP n else n

/-- Nonempty and all decimal digits. -/
def isDigits (n : Name) : Bool := !n.isEmpty && n.all (·.isDigit)

/-- Numeric value of one decimal digit character. -/
def digitVal (c : Char) : Nat := c.toNat - '0'.toNat

/-- Value of a digit string, most significant digit first. -/
def natOfDigits (n : Name) : Nat := n.foldl (fun a c => a * 10 + digitVal c) 0

/-- Exactly three decimal digits (one fan-out group of a tile index). -/
def is3Digits (n : Name) : Bool := n.length == 3 && n.all (·.isDigit)

/-- The tile height H fixed by sunlight (`sunlight.TileHeight`). -/
def tileHeight : Nat := 8

/-- The full tile width (`sunlight.TileWidth`), as a Go `int`. -/
def tileWidth : Int := 256

/-- The literal leading path segment "tile". -/
def tileLit : Name := ['t', 'i', 'l', 'e']

/-- A tile coordinate as produced by `sunlight.ParseTilePath`:
level `L`, index `N`, width `W` (`W = tileWidth` for a full tile). -/
structure Tile where
  L : Int
  N : Int
  W : Int
deriving DecidableEq

/-- Fan-out decoding of a tile index: every segment but the last is
`'x'` followed by three digits, the last is three digits, and the value
is the concatenation read in base 1000.  `acc` is the value of the
groups already consumed. -/
def parseNAux : Nat → List Name → Option Nat
  | _, [] => none
  | acc, [lst] => if is3Digits lst then some (acc * 1000 + natOfDigits lst) else none
  | acc, seg :: rest =>
    if startsWithX seg && is3Digits seg.tail then
      parseNAux (acc * 1000 + natOfDigits seg.tail) rest
    else none

/-- Decode a fan-out encoded tile index from its path segments. -/
def parseN (segs : List Name) : Option Nat := parseNAux 0 segs

/-- Parse the width suffix of a partial tile path: an integer in
`1 ..= tileWidth`. -/
def parseWidth (n : Name) : Option Nat :=
  if isDigits n then
    let v := natOfDigits n
    if 1 ≤ v ∧ v ≤ 256 then some v else none
  else none

/-- Modelled from the spec: `sunlight.ParseTilePath` is part of the
sunlight repository but not under the sources given here.  Per the spec,
a tile path is `tile/<L>/<fan-out encoded N>` for a full tile and
`tile/<L>/<fan-out encoded N>.p/<W>` for a partial tile of width `W`;
`L` is a non-negative decimal level, the fan-out encoding is the
standard transparency-log scheme (groups of three digits, all but the
last prefixed with `x`), and parsing fails loudly on malformed segments,
non-numeric indices, or a width outside `1 ..= tileWidth`. -/
def parseTilePath (p : FPath) : Option Tile :=
  match p with
  | t :: lvl :: rest =>
    if t == tileLit && isDigits lvl then
      match rest.reverse with
      | w :: g :: preRev =>
        if endsDotP g then
          match parseWidth w, parseN (preRev.reverse ++ [stripDotP g]) with
          | some wv, some n =>
            some ⟨(natOfDigits lvl : Int), (n : Int), (wv : Int)⟩
          | _, _ => none
        else
          match parseN rest with
          | some n => some ⟨(natOfDigits lvl : Int), (n : Int), tileWidth⟩
          | none => none
      | _ =>
        match parseN rest with
        | some n => some ⟨(natOfDigits lvl : Int), (n : Int), tileWidth⟩
        | none => none
    else none
  | _ => none

/-- A filesystem tree: regular files carry their size in bytes,
directories carry an ordered list of named children. -/
inductive FSNode where
  | file (size : Int)
  | dir (entries : List (Name × FSNode))

/-- Follow a path from a node; `none` when a segment is missing or a
non-final segment is a regular file. -/
def FSNode.get : FSNode → FPath → Option FSNode
  | n, [] => some n
  | FSNode.file _, _ :: _ => none
  | FSNode.dir es, s :: rest =>
    match es.lookup s with
    | some c => FSNode.get c rest
    | none => none

/-- Go `fs.ReadDir`: list the entries of the directory at `p`. -/
def readDir (root : FSNode) (p : FPath) : Option (List (Name × FSNode)) :=
  match root.get p with
  | some (FSNode.dir es) => some es
  | _ => none

/-- Go `DirEntry.Info().Size()`: a file's byte size; the size reported for a
directory is filesystem specific and modelled as 0. -/
def FSNode.infoSize : FSNode → Int
  | FSNode.file s => s
  | FSNode.dir _ => 0

/-- Remove the entry named `s` from a child list. -/
def eraseKey (s : Name) : List (Name × FSNode) → List (Name × FSNode)
  | [] => []
  | e :: rest => if e.1 = s then rest else e :: eraseKey s rest

/-- Replace the child named `s` by `c`. -/
def setKeyChild (s : Name) (c : FSNode) : List (Name × FSNode) → List (Name × FSNode)
  | [] => []
  | e :: rest => if e.1 = s then (s, c) :: rest else e :: setKeyChild s c rest

/-- Go `os.Root.Remove`: delete the file or empty directory at the path;
fails on a missing entry or a non-empty directory. -/
def FSNode.removeAt : FSNode → FPath → Option FSNode
  | _, [] => none
  | FSNode.file _, _ :: _ => none
  | FSNode.dir es, [s] =>
    match es.lookup s with
    | some (FSNode.file _) => some (FSNode.dir (eraseKey s es))
    | some (FSNode.dir []) => some (FSNode.dir (eraseKey s es))
    | some (FSNode.dir (_ :: _)) => none
    | none => none
  | FSNode.dir es, s :: rest =>
    match es.lookup s with
    | some c =>
      match FSNode.removeAt c rest with
      | some c2 => some (FSNode.dir (setKeyChild s c2 es))
      | none => none
    | none => none

/-- Go `int64` value of a bit pattern given as a natural number. -/
def int64OfNat (n : Nat) : Int :=
  if n % 2 ^ 64 < 2 ^ 63 then ((n % 2 ^ 64 : Nat) : Int)
  else ((n % 2 ^ 64 : Nat) : Int) - 2 ^ 64

/-- Go `int64(1) << k`: bits shifted beyond the word are discarded, so
the result is 0 whenever `k ≥ 64` (and negative for `k = 63`). -/
def goShlOne (k : Nat) : Int := int64OfNat (2 ^ k)

/-- Errors of `overrideImmutable`, in the order the checks occur. -/
inductive OErr where
  | cutPathErr (p : FPath)
  | widthAtoiErr (s : List Name)
  | statErr (p : FPath)
  | fullIsDir (p : FPath)
  | fullIsEmpty (p : FPath)
  | openErr (p : FPath)
deriving DecidableEq

/-- Results with which one log's `cleanDir` walk can stop.
`canceled` is `ctx.Err()`; `divByZero` models the Go runtime panic of
`size/tileSize` when the shifted tile size is zero; `outOfFuel` is the
fuel artifact of the embedding (never returned with enough fuel). -/
inductive CErr where
  | canceled
  | outOfFuel
  | readDirErr (p : FPath)
  | parsePathErr (p : FPath)
  | fullWidthEntry (p : FPath)
  | overrideFailed (p : FPath) (inner : OErr)
  | removeFailed (p : FPath)
  | divByZero (p : FPath)
deriving DecidableEq

/-- Walk state: the log root tree, the three global removal counters of
the command, and the number of `ctx.Err()` checks performed so far. -/
structure St where
  root : FSNode
  removedFiles : Int
  removedDirs : Int
  removedBytes : Int
  checks : Nat

/-- Outcome of a piece of the walk: the Go function either returns `nil`
or an error; in both cases the global state at that moment is kept. -/
inductive CRes where
  | ok (st : St)
  | err (e : CErr) (st : St)

/-- The state carried by a walk outcome. -/
def CRes.state : CRes → St
  | CRes.ok st => st
  | CRes.err _ st => st

/-- The cancellation oracle: answer of the k-th `ctx.Err()` call. -/
abbrev Ctx := Nat → Bool

/-- Go `strings.Cut(name, ".p/")` on the joined path: split at the first
segment that ends in ".p" and is followed by at least one more segment,
returning the full-tile path (the part before ".p") and the remaining
segments (the part after, `"/"`-joined in Go). -/
def cutAtDotP : FPath → Option (FPath × List Name)
  | [] => none
  | [_] => none
  | s :: rest =>
    if endsDotP s then some ([stripDotP s], rest)
    else
      match cutAtDotP rest with
      | some (f, a) => some (s :: f, a)
      | none => none

/-- Go `strconv.Atoi` accepts an optional sign followed by digits. -/
def isGoInt (n : Name) : Bool :=
  match n with
  | c :: d => if c == '+' || c == '-' then isDigits d else isDigits n
  | [] => false

/-- The part after ".p/" parses with `strconv.Atoi` exactly when it is a
single segment (no `'/'`) that is a Go integer literal. -/
def widthOk : List Name → Bool
  | [w] => isGoInt w
  | _ => false

/-- The `overrideImmutable` gate (fourth safety gate): refuse unless the name cuts
at ".p/", the width suffix is an integer, and a direct `Stat` of the
full-tile path finds a non-directory of non-zero size; then open the
partial and best-effort clear the OS immutable flag (modelled as a
no-op on the tree). -/
def overrideImmutable (root : FSNode) (name : FPath) : Except OErr Unit :=
  match cutAtDotP name with
  | none => Except.error (OErr.cutPathErr name)
  | some (full, after) =>
    if widthOk after then
      match root.get full with
      | none => Except.error (OErr.statErr full)
      | some (FSNode.dir _) => Except.error (OErr.fullIsDir full)
      | some (FSNode.file sz) =>
        if sz = 0 then Except.error (OErr.fullIsEmpty full)
        else
          match root.get name with
          | none => Except.error (OErr.openErr name)
          | some _ => Except.ok ()
    else Except.error (OErr.widthAtoiErr after)

/-- Body of the inner loop of `cleanDir` over one entry of a ".p" group:
the parse-confirms-partial gate (a width equal to `tileWidth` is a hard
error), the `overrideImmutable` gate, then count and remove the file.
The counter increments happen in source order: `removedFiles` and
`removedBytes` are already bumped if the final `Remove` fails. -/
def procWidth (gpath : FPath) (st : St) (e : Name × FSNode) : CRes :=
  let name := gpath ++ [e.1]
  match parseTilePath name with
  | none => CRes.err (CErr.parsePathErr name) st
  | some t =>
    if t.W = tileWidth then CRes.err (CErr.fullWidthEntry name) st
    else
      match overrideImmutable st.root name with
      | Except.error oe => CRes.err (CErr.overrideFailed name oe) st
      | Except.ok _ =>
        let st2 : St := { st with
          removedFiles := st.removedFiles + 1,
          removedBytes := st.removedBytes + e.2.infoSize }
        match st2.root.removeAt name with
        | some r2 => CRes.ok { st2 with root := r2 }
        | none => CRes.err (CErr.removeFailed name) st2

/-- Run `f` over the list from the left, stopping at the first error,
like a sequence of early returns in a Go `for` loop. -/
def foldCRes {α : Type} (f : St → α → CRes) : St → List α → CRes
  | st, [] => CRes.ok st
  | st, a :: rest =>
    match f st a with
    | CRes.ok st1 => foldCRes f st1 rest
    | CRes.err e st1 => CRes.err e st1

/-- Body of the outer loop of `cleanDir` over one directory entry:
recurse into fan-out (`x`-prefixed) directories; otherwise require the
".p" suffix and a same-named full sibling (first gate), parse the
stripped path and skip tiles at or beyond the tree's right edge (second
gate, `t.N >= size/tileSize`), then delete every width entry of the
group and finally the group directory itself.  `recurse` is the
recursive `cleanDir` call. -/
def cleanEntryStep (recurse : St → FPath → CRes) (size : Int) (names : List Name)
    (pfx : FPath) (st : St) (e : Name × FSNode) : CRes :=
  let name := pfx ++ [e.1]
  if startsWithX e.1 then recurse st name
  else
    match cutSuffixDotP e.1 with
    | none => CRes.ok st
    | some full =>
      if names.contains full then
        match parseTilePath (pfx ++ [trimSuffixDotP e.1]) with
        | none => CRes.err (CErr.parsePathErr name) st
        | some t =>
          let tsz : Int := goShlOne (tileHeight * ((max 0 t.L).toNat + 1))
          if tsz = 0 then CRes.err (CErr.divByZero name) st
          else if size.tdiv tsz ≤ t.N then CRes.ok st
          else
            match readDir st.root name with
            | none => CRes.err (CErr.readDirErr name) st
            | some ws =>
              match foldCRes (procWidth name) st ws with
              | CRes.err e2 st2 => CRes.err e2 st2
              | CRes.ok st2 =>
                let st4 : St := { st2 with
                  removedDirs := st2.removedDirs + 1,
                  removedBytes := st2.removedBytes + e.2.infoSize }
                match st4.root.removeAt name with
                | some r2 => CRes.ok { st4 with root := r2 }
                | none => CRes.err (CErr.removeFailed name) st4
      else CRes.ok st

/-- The walk `cleanDir(ctx, logger, root, prefix, size)`: check cancellation,
list the directory, index the sibling names, then process each entry
with `cleanEntryStep`. -/
def cleanDirGo : Nat → Ctx → Int → St → FPath → CRes
  | fuel0, ctx, size, st, pfx =>
    if ctx st.checks then CRes.err CErr.canceled st
    else
      let st1 : St := { st with checks := st.checks + 1 }
      match fuel0 with
      | 0 => CRes.err CErr.outOfFuel st1
      | fuel + 1 =>
        match readDir st1.root pfx with
        | none => CRes.err (CErr.readDirErr pfx) st1
        | some entries =>
          foldCRes (cleanEntryStep (cleanDirGo fuel ctx size) size (entries.map (·.1)) pfx)
            st1 entries

/-- Object contents: a list of byte values. -/
abbrev Bytes := List Nat

/-- Modelled from the documented behavior of the standard library
`filepath.Localize` (an external collaborator of `local.go`): a key is
localizable as a relative path inside the root exactly when it is a
nonempty slash-separated path, given here by its segments, with no
empty, `"."` or `".."` segment (an absolute key yields a leading empty
segment). -/
def isLocalizable (key : FPath) : Bool :=
  !key.isEmpty && key.all fun seg => !seg.isEmpty && !(seg == ['.']) && !(seg == ['.', '.'])

/-- The flat object store of a local backend root: localized path to
contents.  Directories are implicit (`MkdirAll` is modelled as always
succeeding). -/
abbrev Store := List (FPath × Bytes)

/-- Write or overwrite the object at `k`. -/
def setStore : Store → FPath → Bytes → Store
  | [], k, v => [(k, v)]
  | e :: rest, k, v => if e.1 = k then (k, v) :: rest else e :: setStore rest k v

/-- Delete the object at `k`. -/
def eraseStore : Store → FPath → Store
  | [], _ => []
  | e :: rest, k => if e.1 = k then rest else e :: eraseStore rest k

/-- Errors of the local backend operations. -/
inductive LErr where
  | localizeErr (key : FPath)
  | mismatchErr (key : FPath)
  | notFoundErr (key : FPath)
deriving DecidableEq

/-- One iteration step state of `compareFile`: the buffer `b` has the
fixed length `bufLen = min (len data0) 16384`; an `os.File.Read` into it
returns `min bufLen rem.length` bytes, and reports `io.EOF` only when
the buffer is nonempty and the file is exhausted — a zero-length buffer
makes `Read` return `(0, nil)` before the end-of-file check
(`internal/poll.FD.Read` returns early for empty buffers).  `none`
means the loop has not returned within `fuel` iterations; `some true`
is a nil return (contents match), `some false` the mismatch error. -/
def compareLoop (bufLen : Nat) : Nat → Bytes → Bytes → Option Bool
  | 0, _, _ => none
  | fuel + 1, rem, data =>
    let n := min bufLen rem.length
    let eof := decide (0 < bufLen ∧ rem.length = 0)
    if data.length < n then some false
    else if rem.take n ≠ data.take n then some false
    else
      let data1 := data.drop n
      let rem1 := rem.drop n
      if eof then some data1.isEmpty else compareLoop bufLen fuel rem1 data1

/-- Run of `compareFile(f, data)` on a file whose remaining contents are
`fileContent`. -/
def compareFileGo (fileContent data : Bytes) (fuel : Nat) : Option Bool :=
  compareLoop (min data.length 16384) fuel fileContent data

/-- Go `LocalBackend.Upload`: localize the key, create directories, and for
an immutable upload onto an existing object run `compareFile` (matching
contents are a warned no-op, differing contents a mismatch error);
otherwise durably write the file (and best-effort set the OS immutable
flag, invisible in this model).  The outer `none` means the call never
returns (the `compareFile` loop did not terminate within `fuel`). -/
def lbUpload (fs : Store) (key : FPath) (data : Bytes) (immutable : Bool) (fuel : Nat) :
    Option (Except LErr Store) :=
  if !isLocalizable key then some (Except.error (LErr.localizeErr key))
  else if immutable then
    match fs.lookup key with
    | some existing =>
      match compareFileGo existing data fuel with
      | none => none
      | some true => some (Except.ok fs)
      | some false => some (Except.error (LErr.mismatchErr key))
    | none => some (Except.ok (setStore fs key data))
  else some (Except.ok (setStore fs key data))

/-- Go `LocalBackend.Fetch`: localize, then read the whole file. -/
def lbFetch (fs : Store) (key : FPath) : Except LErr Bytes :=
  if !isLocalizable key then Except.error (LErr.localizeErr key)
  else
    match fs.lookup key with
    | some d => Except.ok d
    | none => Except.error (LErr.notFoundErr key)

/-- Go `LocalBackend.Discard`: localize, open (clearing the OS immutable
flag, invisible here), then remove. -/
def lbDiscard (fs : Store) (key : FPath) : Except LErr Store :=
  if !isLocalizable key then Except.error (LErr.localizeErr key)
  else
    match fs.lookup key with
    | some _ => Except.ok (eraseStore fs key)
    | none => Except.error (LErr.notFoundErr key)

/-- The `UploadOptions` of the backend contract. -/
structure UploadOptions where
  immutable : Bool
  compressed : Bool
  contentType : Option Name
deriving DecidableEq

/-- The Cache-Control header chosen by `S3Backend.Upload`. -/
inductive CacheCtl where
  | unset
  | immutableWeek
deriving DecidableEq

/-- The Content-Encoding header chosen by `S3Backend.Upload`. -/
inductive ContentEnc where
  | unset
  | gzip
deriving DecidableEq

/-- The Content-Type header chosen by `S3Backend.Upload`. -/
inductive ContentTy where
  | octetStream
  | custom (n : Name)
deriving DecidableEq

/-- The request metadata of both `PutObject` calls of one upload. -/
structure PutMeta where
  contentType : ContentTy
  contentEncoding : ContentEnc
  cacheControl : CacheCtl
deriving DecidableEq

/-- Metadata mapping of `S3Backend.Upload` (lines building the
`PutObjectInput`): default opaque content type unless overridden,
gzip content encoding when compressed, and a long-lived immutable
Cache-Control directive when immutable. -/
def s3PutMeta (opts : Option UploadOptions) : PutMeta :=
  { contentType :=
      match opts with
      | some o =>
        match o.contentType with
        | some n => ContentTy.custom n
        | none => ContentTy.octetStream
      | none => ContentTy.octetStream,
    contentEncoding :=
      match opts with
      | some o => if o.compressed then ContentEnc.gzip else ContentEnc.unset
      | none => ContentEnc.unset,
    cacheControl :=
      match opts with
      | some o => if o.immutable then CacheCtl.immutableWeek else CacheCtl.unset
      | none => CacheCtl.unset }

/-- State of the S3 backend visible to the model: the bucket contents
and the two hedge counters. -/
structure S3St where
  store : List (Name × Bytes)
  hedgeRequests : Int
  hedgeWins : Int

/-- Write or overwrite a bucket object (`PutObject` effect). -/
def setS3 : List (Name × Bytes) → Name → Bytes → List (Name × Bytes)
  | [], k, v => [(k, v)]
  | e :: rest, k, v => if e.1 = k then (k, v) :: rest else e :: setS3 rest k v

/-- Scheduling oracle for one hedged upload, abstracting the goroutine
race of `S3Backend.Upload`: `timerFired` — the 75ms timer fired before
the primary `PutObject` finished and the hedge `PutObject` was issued;
`hedgeDelivered` — the hedge's result was already in the buffered
channel when the post-primary `select` ran (implies `timerFired`);
`primaryErr` / `hedgeErr` — the outcomes of the two requests (`none` is
success). -/
structure PutOutcome where
  timerFired : Bool
  hedgeDelivered : Bool
  primaryErr : Option Nat
  hedgeErr : Option Nat
deriving DecidableEq

/-- Go `S3Backend.Upload` under a scheduling oracle: both `PutObject`
calls write `keyPfx ++ key` (a successful one overwrites any existing
object — no read, no byte comparison); the hedge counter is bumped when
the timer fires; the `select` takes the hedge's result (bumping the
hedge-win counter) exactly when it was already delivered, else the
primary's.  Returns the new state and the error returned to the caller
(`none` is success). -/
def s3Upload (o : PutOutcome) (st : S3St) (keyPfx key : Name) (data : Bytes)
    (_opts : Option UploadOptions) : S3St × Option Nat :=
  let fullKey := keyPfx ++ key
  let hedged := o.timerFired
  let store1 :=
    if o.primaryErr.isNone || (hedged && o.hedgeErr.isNone) then setS3 st.store fullKey data
    else st.store
  let winner := hedged && o.hedgeDelivered
  ({ store := store1,
     hedgeRequests := st.hedgeRequests + (if hedged then 1 else 0),
     hedgeWins := st.hedgeWins + (if winner then 1 else 0) },
   if winner then o.hedgeErr else o.primaryErr)

/-- Configuration and environment of one log in the `main` loop.
`sizeRes` is the outcome of `logSize` (reading `log.v3.json` and the
checkpoint and verifying the signature and origin — external
cryptography, abstracted to its result): `some size` on success,
`none` for any configuration or verification failure. -/
structure LogEnv where
  shortName : Name
  localDirectory : Name
  openRootOk : Bool
  sizeRes : Option Int
  root : FSNode

/-- The global counters of the command between logs. -/
structure MSt where
  removedFiles : Int
  removedDirs : Int
  removedBytes : Int
  checks : Nat

/-- Result of the whole command: the process exit code, whether the
final "done" summary line ran, the per-log directory trees after their
pass (in processing order; logs never reached are absent), and the
final counters. -/
structure MainRes where
  exitCode : Int
  summaryPrinted : Bool
  finalRoots : List (Name × FSNode)
  counters : MSt

/-- The per-log loop over the level directories: `cleanDir` on
`tile/<level>` for each level, and on the first error log it, set the
exit code and break out of the level loop (the next log still runs). -/
def runLevels (ctx : Ctx) (fuel : Nat) (size : Int) : St → List (Name × FSNode) → St × Bool
  | st, [] => (st, false)
  | st, (lname, _) :: rest =>
    match cleanDirGo fuel ctx size st [tileLit, lname] with
    | CRes.ok st1 => runLevels ctx fuel size st1 rest
    | CRes.err _ st1 => (st1, true)

/-- One iteration of the `main` loop: the configuration checks and the
`logSize` verification call `fatalError` on failure, which exits the
whole process (`none`); a missing `tile` directory skips the log; a
`tile` that cannot be listed for another reason is also fatal.  On
success, returns the updated counters, the log's final tree and whether
its level loop failed. -/
def processLog (ctx : Ctx) (fuel : Nat) (m : MSt) (l : LogEnv) :
    Option (MSt × FSNode × Bool) :=
  if l.shortName.isEmpty then none
  else if l.localDirectory.isEmpty then none
  else if !l.openRootOk then none
  else
    match l.sizeRes with
    | none => none
    | some size =>
      match l.root.get [tileLit] with
      | none => some (m, l.root, false)
      | some (FSNode.file _) => none
      | some (FSNode.dir levels) =>
        let st0 : St := ⟨l.root, m.removedFiles, m.removedDirs, m.removedBytes, m.checks⟩
        let r := runLevels ctx fuel size st0 levels
        some (⟨r.1.removedFiles, r.1.removedDirs, r.1.removedBytes, r.1.checks⟩, r.1.root, r.2)

/-- The `main` loop over the configured logs.  `fatalError` prints the
error and exits with status 1 immediately: the summary line and the
remaining logs never run.  Otherwise the loop finishes, the summary is
printed, and the exit code is 1 exactly when some log's cleaning
failed. -/
def runMainLogs (ctx : Ctx) (fuel : Nat) : MSt → Int → List (Name × FSNode) → List LogEnv →
    MainRes
  | m, ec, acc, [] => ⟨ec, true, acc.reverse, m⟩
  | m, ec, acc, l :: rest =>
    match processLog ctx fuel m l with
    | none => ⟨1, false, acc.reverse, m⟩
    | some (m1, root1, failed) =>
      runMainLogs ctx fuel m1 (if failed then 1 else ec) ((l.shortName, root1) :: acc) rest

/-- The whole command on a list of configured logs. -/
def runMain (ctx : Ctx) (fuel : Nat) (logs : List LogEnv) : MainRes :=
  runMainLogs ctx fuel ⟨0, 0, 0, 0⟩ 0 [] logs

/-! ## Basic facts about segment shapes -/

theorem endsDotP_decomp {n : Name} (h : endsDotP n = true) : stripDotP n ++ dotP = n := by
  unfold endsDotP at h
  cases hr : n.reverse with
  | nil => rw [hr] at h; simp at h
  | cons c1 t1 =>
    cases t1 with
    | nil => rw [hr] at h; simp at h
    | cons c2 t2 =>
      rw [hr] at h
      simp only [Bool.and_eq_true, beq_iff_eq] at h
      obtain ⟨h1, h2⟩ := h
      subst h1; subst h2
      have hn : n = t2.reverse ++ ['.', 'p'] := by
        have := congrArg List.reverse hr
        simpa using this
      subst hn
      simp [stripDotP, dotP]

theorem digits_not_x {n : Name} (h : isDigits n = true) : startsWithX n = false := by
  cases n with
  | nil => rfl
  | cons c r =>
    simp only [isDigits, List.isEmpty_cons, List.all_cons, Bool.and_eq_true,
      Bool.not_eq_true'] at h
    simp only [startsWithX, beq_eq_false_iff_ne, ne_eq]
    intro hc
    subst hc
    exact absurd h.2.1 (by decide)

theorem is3Digits_isDigits {n : Name} (h : is3Digits n = true) : isDigits n = true := by
  simp only [is3Digits, Bool.and_eq_true, beq_iff_eq] at h
  cases n with
  | nil => simp at h
  | cons c r => simp_all [isDigits]

theorem xseg_not_dotP {c : Char} {d : Name} (hc : c = 'x') (h3 : is3Digits d = true) :
    endsDotP (c :: d) = false := by
  simp only [is3Digits, Bool.and_eq_true, beq_iff_eq] at h3
  obtain ⟨hl, hd⟩ := h3
  obtain ⟨a, b, e, rfl⟩ := List.length_eq_three.mp hl
  simp only [List.all_cons, Bool.and_eq_true] at hd
  subst hc
  have hm : endsDotP ('x' :: [a, b, e]) = (e == 'p' && b == '.') := by
    simp [endsDotP]
  rw [hm]
  cases he : e == 'p' with
  | false => simp
  | true =>
    have hep : e = 'p' := eq_of_beq he
    subst hep
    exact absurd hd.2.2.1 (by decide)

theorem parseNAux_getLast {l : List Name} :
    ∀ {acc v : Nat}, parseNAux acc l = some v →
      ∃ s, l.getLast? = some s ∧ is3Digits s = true := by
  induction l with
  | nil => intro acc v h; simp [parseNAux] at h
  | cons seg rest ih =>
    intro acc v h
    cases rest with
    | nil =>
      simp only [parseNAux] at h
      by_cases h3 : is3Digits seg = true
      · exact ⟨seg, rfl, h3⟩
      · rw [if_neg h3] at h; cases h
    | cons r2 rs =>
      rw [List.getLast?_cons_cons]
      simp only [parseNAux] at h
      by_cases hx : (startsWithX seg && is3Digits seg.tail) = true
      · rw [if_pos hx] at h
        exact ih h
      · rw [if_neg hx] at h; cases h

theorem parseNAux_dropLast {l : List Name} :
    ∀ {acc v : Nat}, parseNAux acc l = some v →
      ∀ s ∈ l.dropLast, startsWithX s = true ∧ is3Digits s.tail = true := by
  induction l with
  | nil => intro acc v h; simp [parseNAux] at h
  | cons seg rest ih =>
    intro acc v h s hs
    cases rest with
    | nil => simp at hs
    | cons r2 rs =>
      simp only [parseNAux] at h
      by_cases hx : (startsWithX seg && is3Digits seg.tail) = true
      · rw [if_pos hx] at h
        simp only [Bool.and_eq_true] at hx
        rw [List.dropLast_cons_of_ne_nil (by simp)] at hs
        rcases List.mem_cons.mp hs with hkh | hkt
        · subst hkh; exact hx
        · exact ih h s hkt
      · rw [if_neg hx] at h; cases h

theorem startsWithX_not_dotP {s : Name} (hx : startsWithX s = true)
    (h3 : is3Digits s.tail = true) : endsDotP s = false := by
  cases s with
  | nil => cases hx
  | cons c d =>
    simp only [startsWithX, beq_iff_eq] at hx
    simp only [List.tail_cons] at h3
    exact xseg_not_dotP hx h3

theorem parseNAux_ne_nil {acc v : Nat} (h : parseNAux acc [] = some v) : False := by
  simp [parseNAux] at h

theorem startsWithX_append {a b : Name} (ha : a ≠ []) :
    startsWithX (a ++ b) = startsWithX a := by
  cases a with
  | nil => exact absurd rfl ha
  | cons c r => rfl

theorem parseN_no_xp {l : List Name} {n : Nat} (h : parseN l = some n) :
    ∀ s ∈ l, (startsWithX s && endsDotP s) = false := by
  intro s hs
  have hne : l ≠ [] := by
    intro hnil; subst hnil; exact parseNAux_ne_nil h
  have hsplit : l.dropLast ++ [l.getLast hne] = l := List.dropLast_append_getLast hne
  rw [← hsplit] at hs
  rcases List.mem_append.mp hs with hd | hl2
  · have hx := parseNAux_dropLast h s hd
    rw [hx.1, startsWithX_not_dotP hx.1 hx.2]
    rfl
  · have hgl : s = l.getLast hne := by simpa using hl2
    obtain ⟨s2, hs2, h3⟩ := parseNAux_getLast h
    rw [List.getLast?_eq_getLast_of_ne_nil hne] at hs2
    have hss : s = s2 := by rw [hgl]; exact Option.some.inj hs2
    subst hss
    rw [digits_not_x (is3Digits_isDigits h3)]
    rfl

theorem parseN_getLast_not_x {l : List Name} {n : Nat} (h : parseN l = some n) :
    ∃ s, l.getLast? = some s ∧ startsWithX s = false := by
  obtain ⟨s, hs, h3⟩ := parseNAux_getLast h
  exact ⟨s, hs, digits_not_x (is3Digits_isDigits h3)⟩

theorem parseWidth_digits {w : Name} {v : Nat} (h : parseWidth w = some v) :
    isDigits w = true := by
  unfold parseWidth at h
  by_cases hd : isDigits w = true
  · exact hd
  · rw [if_neg hd] at h; cases h

/-- A successfully parsed tile path has no segment that both starts with
the traversal marker `x` and ends with the partial suffix ".p". -/
theorem parse_no_xp_seg {p : FPath} {t : Tile} (h : parseTilePath p = some t) :
    ∀ s ∈ p, (startsWithX s && endsDotP s) = false := by
  match p with
  | [] => cases h
  | [a] => cases h
  | tl :: lvl :: rest =>
    simp only [parseTilePath] at h
    by_cases hc : (tl == tileLit && isDigits lvl) = true
    · rw [if_pos hc] at h
      simp only [Bool.and_eq_true, beq_iff_eq] at hc
      obtain ⟨htl, hlvl⟩ := hc
      subst htl
      intro s hs
      rcases List.mem_cons.mp hs with rfl | hs1
      · rfl
      rcases List.mem_cons.mp hs1 with rfl | hs2
      · rw [digits_not_x hlvl]; rfl
      split at h
      next w g preRev hr =>
        split at h
        next hg =>
          have hrest : rest = preRev.reverse ++ [g, w] := by
            have := congrArg List.reverse hr
            simpa using this
          split at h
          next wv nv hw hn =>
            rw [hrest] at hs2
            rcases List.mem_append.mp hs2 with hpre | hgw
            · have hmem : s ∈ (preRev.reverse ++ [stripDotP g]).dropLast := by
                rw [List.dropLast_concat]
                exact hpre
              have hx := parseNAux_dropLast hn s hmem
              rw [hx.1, startsWithX_not_dotP hx.1 hx.2]
              rfl
            · rcases List.mem_cons.mp hgw with rfl | hw2
              · obtain ⟨s2, hs2g, h3⟩ := parseNAux_getLast hn
                rw [List.getLast?_concat] at hs2g
                have hsg : stripDotP s = s2 := Option.some.inj hs2g
                have hgdec : stripDotP s ++ dotP = s := endsDotP_decomp hg
                have hne2 : stripDotP s ≠ [] := by
                  intro hnil
                  rw [hsg] at hnil
                  subst hnil
                  simp [is3Digits] at h3
                have hgx : startsWithX s = startsWithX (stripDotP s) := by
                  conv_lhs => rw [← hgdec]
                  rw [startsWithX_append hne2]
                rw [hgx, hsg, digits_not_x (is3Digits_isDigits h3)]
                rfl
              · have : s = w := by simpa using hw2
                subst this
                rw [digits_not_x (parseWidth_digits hw)]
                rfl
          next hww => cases h
        next hg =>
          split at h
          next nv hp => exact parseN_no_xp hp s hs2
          next hp => cases h
      next hshape =>
        split at h
        next nv hp => exact parseN_no_xp hp s hs2
        next hp => cases h
    · rw [if_neg hc] at h; cases h

/-- The last segment of a successfully parsed tile path never carries
the traversal marker. -/
theorem parse_getLast_not_x {p : FPath} {t : Tile} (h : parseTilePath p = some t) :
    ∃ s, p.getLast? = some s ∧ startsWithX s = false := by
  match p with
  | [] => cases h
  | [a] => cases h
  | tl :: lvl :: rest =>
    have hrne : rest ≠ [] → (tl :: lvl :: rest : FPath).getLast? = rest.getLast? := by
      intro hne
      cases rest with
      | nil => exact absurd rfl hne
      | cons r rs => rw [List.getLast?_cons_cons, List.getLast?_cons_cons]
    simp only [parseTilePath] at h
    by_cases hc : (tl == tileLit && isDigits lvl) = true
    · rw [if_pos hc] at h
      split at h
      next w g preRev hr =>
        have hne : rest ≠ [] := by
          intro hnil; subst hnil; simp at hr
        have hlast : rest.getLast? = some w := by
          rw [← List.head?_reverse, hr]; rfl
        split at h
        next hg =>
          split at h
          next wv nv hw hn =>
            exact ⟨w, by rw [hrne hne, hlast], digits_not_x (parseWidth_digits hw)⟩
          next => cases h
        next hg =>
          split at h
          next nv hp =>
            obtain ⟨s, hs, hx⟩ := parseN_getLast_not_x hp
            exact ⟨s, by rw [hrne hne, hs], hx⟩
          next => cases h
      next hshape =>
        split at h
        next nv hp =>
          have hne : rest ≠ [] := by
            intro hnil; subst hnil; exact parseNAux_ne_nil hp
          obtain ⟨s, hs, hx⟩ := parseN_getLast_not_x hp
          exact ⟨s, by rw [hrne hne, hs], hx⟩
        next => cases h
    · rw [if_neg hc] at h; cases h

theorem cutSuffixDotP_some {n full : Name} (h : cutSuffixDotP n = some full) :
    endsDotP n = true ∧ full = stripDotP n := by
  unfold cutSuffixDotP at h
  by_cases hd : endsDotP n = true
  · rw [if_pos hd] at h; exact ⟨hd, (Option.some.inj h).symm⟩
  · rw [if_neg hd] at h; cases h

/-- A group entry whose stripped path parses cannot itself carry the
traversal marker: `cleanDir` would have classified it as a fan-out
directory, but no parsed path ends in an `x`-led segment. -/
theorem parse_trim_not_x {pfx : FPath} {e1 : Name} {t : Tile}
    (hdot : endsDotP e1 = true)
    (hp : parseTilePath (pfx ++ [trimSuffixDotP e1]) = some t) :
    startsWithX e1 = false := by
  obtain ⟨s, hs, hx⟩ := parse_getLast_not_x hp
  rw [List.getLast?_concat] at hs
  have hst : trimSuffixDotP e1 = s := Option.some.inj hs
  have htrim : trimSuffixDotP e1 = stripDotP e1 := by rw [trimSuffixDotP, if_pos hdot]
  have hdec : stripDotP e1 ++ dotP = e1 := endsDotP_decomp hdot
  cases hsd : stripDotP e1 with
  | nil =>
    have he1 : e1 = dotP := by rw [← hdec, hsd]; rfl
    rw [he1]; rfl
  | cons c r =>
    have h1 : startsWithX e1 = startsWithX (stripDotP e1) := by
      conv_lhs => rw [← hdec]
      rw [startsWithX_append (by rw [hsd]; exact List.cons_ne_nil c r)]
    rw [h1, ← htrim, hst]
    exact hx

theorem goShlOne_small {k : Nat} (hk : k < 63) : goShlOne k = 2 ^ k := by
  unfold goShlOne int64OfNat
  have h64 : (2 : Nat) ^ k < 2 ^ 64 := Nat.pow_lt_pow_right (by norm_num) (by omega)
  have h63 : (2 : Nat) ^ k < 2 ^ 63 := Nat.pow_lt_pow_right (by norm_num) hk
  rw [Nat.mod_eq_of_lt h64, if_pos h63]
  push_cast
  rfl

/-- The edge safety gate, for any recursion continuation: an entry in a
tile-path position (so not `x`-led), with the ".p" suffix, a same-named
full sibling, a parsed stripped path at a level whose tile size is
representable, and an index at or beyond `size / tileSize`, is skipped
with the state — tree and counters — returned unchanged. -/
theorem edge_gate_skip (recurse : St → FPath → CRes) (size : Int) (names : List Name)
    (pfx : FPath) (st : St) (e : Name × FSNode) (full : Name) (t : Tile)
    (hcut : cutSuffixDotP e.1 = some full)
    (hsib : names.contains full = true)
    (hparse : parseTilePath (pfx ++ [trimSuffixDotP e.1]) = some t)
    (hL : t.L ≤ 6)
    (hedge : Int.tdiv size ((2 : Int) ^ (tileHeight * ((max 0 t.L).toNat + 1))) ≤ t.N) :
    cleanEntryStep recurse size names pfx st e = CRes.ok st := by
  obtain ⟨hdot, hfull⟩ := cutSuffixDotP_some hcut
  have hX : startsWithX e.1 = false := parse_trim_not_x hdot hparse
  have hk : tileHeight * ((max 0 t.L).toNat + 1) < 63 := by
    have hm : (max 0 t.L).toNat ≤ 6 := by omega
    simp only [tileHeight]
    omega
  have htsz : goShlOne (tileHeight * ((max 0 t.L).toNat + 1))
      = (2 : Int) ^ (tileHeight * ((max 0 t.L).toNat + 1)) := goShlOne_small hk
  have htnz : ¬((2 : Int) ^ (tileHeight * ((max 0 t.L).toNat + 1)) = 0) := by
    positivity
  simp only [cleanEntryStep, hX, Bool.false_eq_true, if_false, hcut, hsib, hparse,
    if_true, htsz]
  rw [if_neg htnz, if_pos hedge]

/-! ## Preservation of the tree and counters on skipped or failing paths -/

/-- Two walk states agree on everything the removal machinery can
change: the tree and the three counters (the check count may differ). -/
def sameFs (a b : St) : Prop :=
  a.root = b.root ∧ a.removedFiles = b.removedFiles ∧
  a.removedDirs = b.removedDirs ∧ a.removedBytes = b.removedBytes

theorem sameFs_refl (a : St) : sameFs a a := ⟨rfl, rfl, rfl, rfl⟩

theorem sameFs_trans {a b c : St} (h1 : sameFs a b) (h2 : sameFs b c) : sameFs a c :=
  ⟨h1.1.trans h2.1, h1.2.1.trans h2.2.1, h1.2.2.1.trans h2.2.2.1, h1.2.2.2.trans h2.2.2.2⟩

/-- A walk prefix containing a segment that both starts with the
traversal marker `x` and ends with ".p": no path below such a directory
can parse as a tile, so nothing below it is ever removed. -/
def BadPfx (p : FPath) : Prop := ∃ s ∈ p, (startsWithX s && endsDotP s) = true

theorem foldCRes_pres {α : Type} {f : St → α → CRes} {l : List α}
    (hf : ∀ st a, a ∈ l → sameFs ((f st a).state) st) :
    ∀ st, sameFs ((foldCRes f st l).state) st := by
  induction l with
  | nil => intro st; exact sameFs_refl st
  | cons a rest ih =>
    intro st
    simp only [foldCRes]
    cases hfa : f st a with
    | ok st1 =>
      have h1 : sameFs st1 st := by
        have := hf st a (List.mem_cons_self a rest)
        rw [hfa] at this
        exact this
      exact sameFs_trans
        (ih (fun st2 b hb => hf st2 b (List.mem_cons_of_mem a hb)) st1) h1
    | err e2 st1 =>
      have := hf st a (List.mem_cons_self a rest)
      rw [hfa] at this
      exact this

theorem entryStep_pres {recurse : St → FPath → CRes} {size : Int} {names : List Name}
    {pfx : FPath} {st : St} {e : Name × FSNode}
    (hrec : ∀ st2 p, BadPfx p → sameFs ((recurse st2 p).state) st2)
    (hbad : BadPfx pfx) :
    sameFs ((cleanEntryStep recurse size names pfx st e).state) st := by
  unfold cleanEntryStep
  by_cases hX : startsWithX e.1 = true
  · simp only [hX, if_true]
    exact hrec st (pfx ++ [e.1])
      ⟨hbad.choose, List.mem_append_left _ hbad.choose_spec.1, hbad.choose_spec.2⟩
  · simp only [Bool.not_eq_true] at hX
    simp only [hX, Bool.false_eq_true, if_false]
    cases hcut : cutSuffixDotP e.1 with
    | none => exact sameFs_refl st
    | some full =>
      by_cases hsib : names.contains full = true
      · simp only [hsib, if_true]
        cases hp : parseTilePath (pfx ++ [trimSuffixDotP e.1]) with
        | none => exact sameFs_refl st
        | some t =>
          exfalso
          obtain ⟨s, hs, hxp⟩ := hbad
          have := parse_no_xp_seg hp s (List.mem_append_left _ hs)
          rw [this] at hxp
          cases hxp
      · simp only [Bool.not_eq_true] at hsib
        simp only [hsib, Bool.false_eq_true, if_false]
        exact sameFs_refl st

theorem dirGo_pres : ∀ (fuel : Nat) (ctx : Ctx) (size : Int) (st : St) (pfx : FPath),
    BadPfx pfx → sameFs ((cleanDirGo fuel ctx size st pfx).state) st := by
  intro fuel
  induction fuel with
  | zero =>
    intro ctx size st pfx _
    unfold cleanDirGo
    by_cases hctx : ctx st.checks = true
    · simp only [hctx, if_true]; exact sameFs_refl st
    · simp only [hctx, Bool.false_eq_true, if_false]
      exact ⟨rfl, rfl, rfl, rfl⟩
  | succ fuel ih =>
    intro ctx size st pfx hbad
    unfold cleanDirGo
    by_cases hctx : ctx st.checks = true
    · simp only [hctx, if_true]; exact sameFs_refl st
    · simp only [hctx, Bool.false_eq_true, if_false]
      cases hrd : readDir { st with checks := st.checks + 1 }.root pfx with
      | none => exact ⟨rfl, rfl, rfl, rfl⟩
      | some entries =>
        have hpres : sameFs
            ((foldCRes (cleanEntryStep (cleanDirGo fuel ctx size) size
                (entries.map (·.1)) pfx) { st with checks := st.checks + 1 } entries).state)
            { st with checks := st.checks + 1 } :=
          foldCRes_pres
            (fun st2 a _ => entryStep_pres (fun st3 p hp => ih ctx size st3 p hp) hbad)
            { st with checks := st.checks + 1 }
        exact sameFs_trans hpres ⟨rfl, rfl, rfl, rfl⟩

/-! ## Concrete inputs used by the claim theorems and witnesses -/

/-- A cancellation oracle that never cancels. -/
def egCtxNone : Ctx := fun _ => false

def n0 : Name := ['0']
def n7 : Name := ['7']
def n000 : Name := ['0', '0', '0']
def n001 : Name := ['0', '0', '1']
def n002 : Name := ['0', '0', '2']
def n003 : Name := ['0', '0', '3']
def n000p : Name := ['0', '0', '0', '.', 'p']
def n001p : Name := ['0', '0', '1', '.', 'p']
def n002p : Name := ['0', '0', '2', '.', 'p']
def n003p : Name := ['0', '0', '3', '.', 'p']
def n050 : Name := ['0', '5', '0']
def n100 : Name := ['1', '0', '0']
def n123 : Name := ['1', '2', '3']
def n200 : Name := ['2', '0', '0']
def n256 : Name := ['2', '5', '6']

/-- Level-0 directory of a log of size 1000: full tiles 0..3, and one
partial tile group per index. -/
def egLvl0 : List (Name × FSNode) :=
  [(n000, FSNode.file 10), (n000p, FSNode.dir [(n123, FSNode.file 3)]),
   (n001, FSNode.file 10), (n001p, FSNode.dir [(n200, FSNode.file 4)]),
   (n002, FSNode.file 10), (n002p, FSNode.dir [(n050, FSNode.file 5)]),
   (n003, FSNode.file 10), (n003p, FSNode.dir [(n100, FSNode.file 6)])]

def egRoot : FSNode := FSNode.dir [(tileLit, FSNode.dir [(n0, FSNode.dir egLvl0)])]

/-- The tree `egRoot` after compaction: the groups of the eligible indices 0, 1
and 2 are gone; the edge group `003.p` survives with its width file. -/
def egLvl0After : List (Name × FSNode) :=
  [(n000, FSNode.file 10), (n001, FSNode.file 10), (n002, FSNode.file 10),
   (n003, FSNode.file 10), (n003p, FSNode.dir [(n100, FSNode.file 6)])]

def egRootAfter : FSNode :=
  FSNode.dir [(tileLit, FSNode.dir [(n0, FSNode.dir egLvl0After)])]

/-- A level-7 directory: the same shape at tile level 7, where the Go
shift `int64(1) << 64` yields tile size 0. -/
def egRoot7 : FSNode :=
  FSNode.dir [(tileLit, FSNode.dir [(n7, FSNode.dir
    [(n000, FSNode.file 10), (n000p, FSNode.dir [(n123, FSNode.file 3)])])])]

/-- An empty-tree walk state. -/
def egSt0 : St := ⟨FSNode.dir [], 0, 0, 0, 0⟩

/-! ## Claim theorems -/

/-- C1 (amended): for every log size and every partial-tile group whose
stripped name parses as a tile `(L, N_tile)` **with `L ≤ 6`**, if
`N_tile ≥ size / 2 ^ (tileHeight * (L + 1))`, then the walk body skips
the group, returning the state unchanged — no partial is removed;
concretely, at size 1000 the level-0 groups 0, 1, 2 are removed when
full siblings exist and the edge group at index 3 keeps its partials.
(For `L ≥ 7` the claim fails: see the counterexample.) -/
theorem c1_edge_gate :
    (∀ (recurse : St → FPath → CRes) (size : Int) (names : List Name) (pfx : FPath)
        (st : St) (e : Name × FSNode) (full : Name) (t : Tile),
      cutSuffixDotP e.1 = some full →
      names.contains full = true →
      parseTilePath (pfx ++ [trimSuffixDotP e.1]) = some t →
      t.L ≤ 6 →
      Int.tdiv size ((2 : Int) ^ (tileHeight * ((max 0 t.L).toNat + 1))) ≤ t.N →
      cleanEntryStep recurse size names pfx st e = CRes.ok st)
    ∧ cleanDirGo 8 egCtxNone 1000 ⟨egRoot, 0, 0, 0, 0⟩ [tileLit, n0]
        = CRes.ok ⟨egRootAfter, 3, 3, 12, 1⟩ := by
  constructor
  · intro recurse size names pfx st e full t hcut hsib hparse hL hedge
    exact edge_gate_skip recurse size names pfx st e full t hcut hsib hparse hL hedge
  · rfl

/-- C1 witness: the universal part applied to the edge group `003.p` of
a log of size 1000 (level 0, index 3 = 1000 / 256). -/
theorem c1_edge_gate_witness :
    cutSuffixDotP n003p = some n003
    ∧ [n003].contains n003 = true
    ∧ parseTilePath ([tileLit, n0] ++ [trimSuffixDotP n003p]) = some ⟨0, 3, 256⟩
    ∧ (0 : Int) ≤ 6
    ∧ Int.tdiv 1000 ((2 : Int) ^ (tileHeight * ((max 0 (0 : Int)).toNat + 1))) ≤ 3
    ∧ cleanEntryStep (fun st _ => CRes.ok st) 1000 [n003] [tileLit, n0] egSt0
        (n003p, FSNode.dir [(n100, FSNode.file 6)]) = CRes.ok egSt0 :=
  ⟨rfl, rfl, rfl, by decide, by decide,
    c1_edge_gate.1 (fun st _ => CRes.ok st) 1000 [n003] [tileLit, n0] egSt0
      (n003p, FSNode.dir [(n100, FSNode.file 6)]) n003 ⟨0, 3, 256⟩ rfl rfl rfl
      (by decide) (by decide)⟩

/-- C1 counterexample: at level 7 the premise of the claim holds — the
stripped name parses as `(L, N_tile) = (7, 0)` and
`N_tile ≥ 1000 / tileSize(7)` — but `cleanDir` does not skip the group:
the Go tile-size shift `int64(1) << 64` is 0 and `size/tileSize` is a
division by zero (a runtime panic), so the walk aborts instead of
continuing, as the model's `divByZero` result shows. -/
theorem c1_edge_gate_counterexample :
    parseTilePath [tileLit, n7, n000] = some ⟨7, 0, 256⟩
    ∧ Int.tdiv 1000 ((2 : Int) ^ (tileHeight * (7 + 1))) ≤ 0
    ∧ goShlOne (tileHeight * ((max 0 (7 : Int)).toNat + 1)) = 0
    ∧ cleanDirGo 8 egCtxNone 1000 ⟨egRoot7, 0, 0, 0, 0⟩ [tileLit, n7]
        = CRes.err (CErr.divByZero [tileLit, n7, n000p]) ⟨egRoot7, 0, 0, 0, 1⟩ :=
  ⟨rfl, by decide, by decide, rfl⟩

/-- C2: (a) a ".p" entry whose stripped name has no same-named sibling
leaves the tree and the counters unchanged (for an `x`-led ".p" entry
the walk recurses, but nothing below such a directory can ever be
removed); (b) an entry inside a ".p" group that parses as a tile of
width `tileWidth` is a hard error, returned with the state unchanged —
the entry is not deleted. -/
theorem c2_gate_independence :
    (∀ (fuel : Nat) (ctx : Ctx) (size : Int) (names : List Name) (pfx : FPath)
        (st : St) (e : Name × FSNode),
      endsDotP e.1 = true →
      names.contains (stripDotP e.1) = false →
      sameFs ((cleanEntryStep (cleanDirGo fuel ctx size) size names pfx st e).state) st)
    ∧ (∀ (gpath : FPath) (st : St) (e : Name × FSNode) (t : Tile),
      parseTilePath (gpath ++ [e.1]) = some t → t.W = tileWidth →
      procWidth gpath st e = CRes.err (CErr.fullWidthEntry (gpath ++ [e.1])) st) := by
  constructor
  · intro fuel ctx size names pfx st e hdot hsib
    unfold cleanEntryStep
    by_cases hX : startsWithX e.1 = true
    · simp only [hX, if_true]
      exact dirGo_pres fuel ctx size st (pfx ++ [e.1])
        ⟨e.1, List.mem_append_right _ (List.mem_singleton_self e.1),
          by rw [hX, hdot]; rfl⟩
    · simp only [Bool.not_eq_true] at hX
      simp only [hX, Bool.false_eq_true, if_false]
      rw [cutSuffixDotP, if_pos hdot]
      simp only [hsib, Bool.false_eq_true, if_false]
      exact sameFs_refl st
  · intro gpath st e t hparse hW
    simp only [procWidth, hparse]
    rw [if_pos hW]

/-- C2 witness: a sibling-less group entry is left alone, and the entry
"256" inside the group `000.p` (parsing as a full-width tile) aborts. -/
theorem c2_gate_independence_witness :
    endsDotP n003p = true
    ∧ ([] : List Name).contains (stripDotP n003p) = false
    ∧ sameFs ((cleanEntryStep (cleanDirGo 0 egCtxNone 0) 0 [] [] egSt0
        (n003p, FSNode.dir [(n100, FSNode.file 6)])).state) egSt0
    ∧ parseTilePath ([tileLit, n0, n000p] ++ [n256]) = some ⟨0, 0, 256⟩
    ∧ (⟨0, 0, 256⟩ : Tile).W = tileWidth
    ∧ procWidth [tileLit, n0, n000p] egSt0 (n256, FSNode.file 2)
        = CRes.err (CErr.fullWidthEntry ([tileLit, n0, n000p] ++ [n256])) egSt0 :=
  ⟨rfl, rfl,
    c2_gate_independence.1 0 egCtxNone 0 [] [] egSt0
      (n003p, FSNode.dir [(n100, FSNode.file 6)]) rfl rfl,
    rfl, by decide,
    c2_gate_independence.2 [tileLit, n0, n000p] egSt0 (n256, FSNode.file 2)
      ⟨0, 0, 256⟩ rfl (by decide)⟩

/-- C3: `overrideImmutable` succeeds only if the name cuts at ".p/",
the width suffix is a Go integer, and an independent `Stat` of the
full-tile path finds a regular file of non-zero size that moreover can
be opened; and whenever it fails, the width-entry processing returns
that error with the state — including the tree — unchanged, so the
partial tile is not removed. -/
theorem c3_independent_existence :
    (∀ (root : FSNode) (name : FPath),
      overrideImmutable root name = Except.ok () →
      ∃ full after sz, cutAtDotP name = some (full, after) ∧ widthOk after = true ∧
        root.get full = some (FSNode.file sz) ∧ ¬sz = 0 ∧ (root.get name).isSome = true)
    ∧ (∀ (gpath : FPath) (st : St) (e : Name × FSNode) (oe : OErr),
      overrideImmutable st.root (gpath ++ [e.1]) = Except.error oe →
      ∃ e2, procWidth gpath st e = CRes.err e2 st) := by
  constructor
  · intro root name h
    unfold overrideImmutable at h
    split at h
    · cases h
    next full after heq =>
      split at h
      next hwid =>
        split at h
        · cases h
        · cases h
        next sz hget =>
          split at h
          · cases h
          next hsz =>
            split at h
            next hopen => cases h
            next v hopen =>
              exact ⟨full, after, sz, heq, hwid, hget, hsz, by rw [hopen]; rfl⟩
      next hwid => cases h
  · intro gpath st e oe hov
    cases hp : parseTilePath (gpath ++ [e.1]) with
    | none =>
      refine ⟨CErr.parsePathErr (gpath ++ [e.1]), ?_⟩
      simp only [procWidth, hp]
    | some t =>
      by_cases hW : t.W = tileWidth
      · refine ⟨CErr.fullWidthEntry (gpath ++ [e.1]), ?_⟩
        simp only [procWidth, hp]
        rw [if_pos hW]
      · refine ⟨CErr.overrideFailed (gpath ++ [e.1]) oe, ?_⟩
        simp only [procWidth, hp]
        rw [if_neg hW, hov]

/-- C3 witness: the gate passes on a well-formed pair (full tile present,
non-empty, integer width) and fails — without touching the state — when
the full tile is missing. -/
theorem c3_independent_existence_witness :
    overrideImmutable (FSNode.dir [(n000, FSNode.file 5),
        (n000p, FSNode.dir [(n123, FSNode.file 3)])]) [n000p, n123] = Except.ok ()
    ∧ (∃ full after sz,
        cutAtDotP [n000p, n123] = some (full, after) ∧ widthOk after = true ∧
        (FSNode.dir [(n000, FSNode.file 5),
          (n000p, FSNode.dir [(n123, FSNode.file 3)])]).get full
            = some (FSNode.file sz) ∧ ¬sz = 0 ∧
        ((FSNode.dir [(n000, FSNode.file 5),
          (n000p, FSNode.dir [(n123, FSNode.file 3)])]).get [n000p, n123]).isSome = true)
    ∧ overrideImmutable egSt0.root ([n000p] ++ [n123]) = Except.error (OErr.statErr [n000])
    ∧ (∃ e2, procWidth [n000p] egSt0 (n123, FSNode.file 3) = CRes.err e2 egSt0) :=
  ⟨rfl,
    c3_independent_existence.1 (FSNode.dir [(n000, FSNode.file 5),
      (n000p, FSNode.dir [(n123, FSNode.file 3)])]) [n000p, n123] rfl,
    rfl,
    c3_independent_existence.2 [n000p] egSt0 (n123, FSNode.file 3)
      (OErr.statErr [n000]) rfl⟩

/-- C8: a context that is already cancelled at the current check makes
`cleanDir` return the cancellation error at once with the state — tree,
counters, check count — exactly as it was, and every recursive entry
into a fan-out directory performs the same check first, so the walk
stops between entries as soon as the oracle reports cancellation. -/
theorem c8_cancellation :
    (∀ (fuel : Nat) (ctx : Ctx) (size : Int) (st : St) (pfx : FPath),
      ctx st.checks = true →
      cleanDirGo fuel ctx size st pfx = CRes.err CErr.canceled st)
    ∧ (∀ (fuel : Nat) (ctx : Ctx) (size : Int) (names : List Name) (pfx : FPath)
        (st : St) (e : Name × FSNode),
      startsWithX e.1 = true → ctx st.checks = true →
      cleanEntryStep (cleanDirGo fuel ctx size) size names pfx st e
        = CRes.err CErr.canceled st) := by
  constructor
  · intro fuel ctx size st pfx hctx
    cases fuel with
    | zero => unfold cleanDirGo; rw [if_pos hctx]
    | succ fuel => unfold cleanDirGo; rw [if_pos hctx]
  · intro fuel ctx size names pfx st e hX hctx
    unfold cleanEntryStep
    rw [if_pos hX]
    cases fuel with
    | zero => unfold cleanDirGo; rw [if_pos hctx]
    | succ fuel => unfold cleanDirGo; rw [if_pos hctx]

/-- C8 witness: an always-cancelled context on the concrete tree
removes nothing and returns the cancellation error immediately, also
when entered at a fan-out directory entry. -/
theorem c8_cancellation_witness :
    ((fun _ => true) : Ctx) (St.checks ⟨egRoot, 0, 0, 0, 0⟩) = true
    ∧ cleanDirGo 8 (fun _ => true) 1000 ⟨egRoot, 0, 0, 0, 0⟩ [tileLit, n0]
        = CRes.err CErr.canceled ⟨egRoot, 0, 0, 0, 0⟩
    ∧ startsWithX ['x', '0'] = true
    ∧ cleanEntryStep (cleanDirGo 8 (fun _ => true) 1000) 1000 [] [tileLit]
        ⟨egRoot, 0, 0, 0, 0⟩ (['x', '0'], FSNode.dir [])
        = CRes.err CErr.canceled ⟨egRoot, 0, 0, 0, 0⟩ :=
  ⟨rfl,
    c8_cancellation.1 8 (fun _ => true) 1000 ⟨egRoot, 0, 0, 0, 0⟩ [tileLit, n0] rfl,
    rfl,
    c8_cancellation.2 8 (fun _ => true) 1000 [] [tileLit] ⟨egRoot, 0, 0, 0, 0⟩
      (['x', '0'], FSNode.dir []) rfl rfl⟩

/-! ## The compareFile zero-length-buffer loop -/

theorem compareLoop_zero_buf :
    ∀ (fuel : Nat) (rem : Bytes), compareLoop 0 fuel rem [] = none := by
  intro fuel
  induction fuel with
  | zero => intro rem; rfl
  | succ fuel ih =>
    intro rem
    simp [compareLoop, ih rem]

/-- C10: `compareFile` does **not** terminate for every data argument.
With empty `data` the read buffer has length `min 0 16384 = 0`, every
`Read` into it returns `(0, nil)` before the end-of-file check, and the
loop never reaches the `io.EOF` branch: for every existing file content
and every iteration bound, the loop has not returned.  Consequently
`LocalBackend.Upload` with `Immutable=true` on an existing key and
empty data never returns — the claimed termination fails. -/
theorem c10_compareFile_empty_data_diverges :
    ∀ (content : Bytes) (fuel : Nat), compareFileGo content [] fuel = none := by
  intro content fuel
  unfold compareFileGo
  have h : min (List.length ([] : Bytes)) 16384 = 0 := rfl
  rw [h]
  exact compareLoop_zero_buf fuel content

/-- C4: `LocalBackend.Upload` with `Immutable=true` onto an existing key
compares via `compareFile`; for empty data the call never returns
(first conjunct, for any iteration bound — the divergence of the claim),
while for non-empty data the claimed behavior holds on the byte level:
identical bytes are a silent no-op success and differing bytes are a
content-mismatch error leaving the store unchanged. -/
theorem c4_local_immutable_upload :
    (∀ (fuel : Nat),
      lbUpload [([['k']], [7])] [['k']] [] true fuel = none)
    ∧ lbUpload [([['k']], [7])] [['k']] [7] true 2
        = some (Except.ok [([['k']], [7])])
    ∧ lbUpload [([['k']], [7])] [['k']] [8] true 2
        = some (Except.error (LErr.mismatchErr [['k']])) := by
  refine ⟨?_, rfl, rfl⟩
  intro fuel
  have h : compareFileGo [7] [] fuel = none := compareLoop_zero_buf fuel [7]
  simp [lbUpload, h, isLocalizable]

theorem isLocalizable_false_of_bad {key : FPath}
    (h : ['.', '.'] ∈ key ∨ key.head? = some []) : isLocalizable key = false := by
  by_contra hne
  have htrue : isLocalizable key = true := by
    cases hloc : isLocalizable key
    · exact absurd hloc hne
    · rfl
  unfold isLocalizable at htrue
  simp only [Bool.and_eq_true, List.all_eq_true] at htrue
  obtain ⟨hnem, hall⟩ := htrue
  rcases h with hdd | habs
  · have := hall _ hdd
    simp at this
  · cases key with
    | nil => simp at habs
    | cons k ks =>
      have hk : k = [] := by simpa using habs
      have := hall k (List.mem_cons_self k ks)
      rw [hk] at this
      simp at this

/-- C7: a key with a ".." segment or an absolute-path escape (a leading
empty segment) cannot be localized, and each of Upload, Fetch and
Discard of the local backend returns the localization error as its
first action — before any filesystem access, leaving the store as it
was. -/
theorem c7_path_sandboxing :
    ∀ (fs : Store) (key : FPath) (data : Bytes) (imm : Bool) (fuel : Nat),
      (['.', '.'] ∈ key ∨ key.head? = some []) →
      lbUpload fs key data imm fuel = some (Except.error (LErr.localizeErr key))
      ∧ lbFetch fs key = Except.error (LErr.localizeErr key)
      ∧ lbDiscard fs key = Except.error (LErr.localizeErr key) := by
  intro fs key data imm fuel h
  have hloc := isLocalizable_false_of_bad h
  refine ⟨?_, ?_, ?_⟩ <;> simp [lbUpload, lbFetch, lbDiscard, hloc]

/-- C7 witness: the key "../a". -/
theorem c7_path_sandboxing_witness :
    (['.', '.'] ∈ ([['.', '.'], ['a']] : FPath)
      ∨ ([['.', '.'], ['a']] : FPath).head? = some [])
    ∧ lbUpload [] [['.', '.'], ['a']] [1] true 1
        = some (Except.error (LErr.localizeErr [['.', '.'], ['a']]))
    ∧ lbFetch [] [['.', '.'], ['a']]
        = Except.error (LErr.localizeErr [['.', '.'], ['a']])
    ∧ lbDiscard [] [['.', '.'], ['a']]
        = Except.error (LErr.localizeErr [['.', '.'], ['a']]) :=
  have h9 := c7_path_sandboxing [] [['.', '.'], ['a']] [1] true 1 (Or.inl (by decide))
  ⟨Or.inl (by decide), h9.1, h9.2.1, h9.2.2⟩

/-- C5 (amended): `S3Backend.Upload` with `Immutable=true` does not
read or byte-compare the existing object: it marks the request with the
immutable Cache-Control directive and performs an unconditional
`PutObject`, so a successful put overwrites whatever was stored at the
key, returning success rather than a content-mismatch error. -/
theorem c5_s3_immutable_overwrite :
    (∀ (o : PutOutcome) (st : S3St) (kp k : Name) (data : Bytes)
        (opts : Option UploadOptions),
      o.primaryErr = none →
      (s3Upload o st kp k data opts).1.store = setS3 st.store (kp ++ k) data
      ∧ (s3Upload o st kp k data opts).2
          = (if o.timerFired && o.hedgeDelivered then o.hedgeErr else none))
    ∧ (∀ (opts : UploadOptions),
      (s3PutMeta (some opts)).cacheControl
        = (if opts.immutable then CacheCtl.immutableWeek else CacheCtl.unset)) := by
  constructor
  · intro o st kp k data opts hp
    refine ⟨?_, ?_⟩
    · simp [s3Upload, hp]
    · by_cases hw : (o.timerFired && o.hedgeDelivered) = true
      · simp [s3Upload, hp, hw]
      · simp [s3Upload, hp, hw]
  · intro opts
    rfl

/-- C5 witness: the universal part at a concrete fast, successful put. -/
theorem c5_s3_immutable_overwrite_witness :
    (PutOutcome.primaryErr ⟨false, false, none, none⟩ = none)
    ∧ (s3Upload ⟨false, false, none, none⟩ ⟨[(['k'], [1])], 0, 0⟩ [] ['k'] [2]
        (some ⟨true, false, none⟩)).1.store = setS3 [(['k'], [1])] ([] ++ ['k']) [2]
    ∧ (s3Upload ⟨false, false, none, none⟩ ⟨[(['k'], [1])], 0, 0⟩ [] ['k'] [2]
        (some ⟨true, false, none⟩)).2 = (if false && false then none else none)
    ∧ (s3PutMeta (some ⟨true, false, none⟩)).cacheControl
        = (if true then CacheCtl.immutableWeek else CacheCtl.unset) :=
  have h9 := c5_s3_immutable_overwrite.1 ⟨false, false, none, none⟩
    ⟨[(['k'], [1])], 0, 0⟩ [] ['k'] [2] (some ⟨true, false, none⟩) rfl
  ⟨rfl, h9.1, h9.2, c5_s3_immutable_overwrite.2 ⟨true, false, none⟩⟩

/-- C5 counterexample: with an object `[1]` stored at key "k", an
immutable upload of different bytes `[2]` returns success (`none`
error) and overwrites the stored object with `[2]` — where the claim
requires a byte comparison that fails with a content-mismatch error
and no overwrite. -/
theorem c5_s3_immutable_overwrite_counterexample :
    s3Upload ⟨false, false, none, none⟩ ⟨[(['k'], [1])], 0, 0⟩ [] ['k'] [2]
        (some ⟨true, false, none⟩)
      = (⟨[(['k'], [2])], 0, 0⟩, none) := rfl

/-- C9: if the primary put finishes before the 75ms timer (the oracle's
`timerFired = false`), no hedge request is issued — both hedge counters
are untouched — and the primary's result is returned; if the timer
fires, exactly one hedge request is issued (counter +1), the caller
gets exactly one of the two results — the hedge's iff it was already
delivered at the `select` — and the hedge-win counter is incremented
exactly when the returned result is the hedge's. -/
theorem c9_hedging :
    ∀ (o : PutOutcome) (st : S3St) (kp k : Name) (data : Bytes)
      (opts : Option UploadOptions),
      (o.timerFired = false →
        (s3Upload o st kp k data opts).1.hedgeRequests = st.hedgeRequests
        ∧ (s3Upload o st kp k data opts).1.hedgeWins = st.hedgeWins
        ∧ (s3Upload o st kp k data opts).2 = o.primaryErr)
      ∧ (o.timerFired = true →
        (s3Upload o st kp k data opts).1.hedgeRequests = st.hedgeRequests + 1
        ∧ (s3Upload o st kp k data opts).2
            = (if o.hedgeDelivered then o.hedgeErr else o.primaryErr)
        ∧ ((s3Upload o st kp k data opts).1.hedgeWins = st.hedgeWins + 1
            ↔ o.hedgeDelivered = true)
        ∧ ((s3Upload o st kp k data opts).1.hedgeWins = st.hedgeWins
            ↔ o.hedgeDelivered = false)) := by
  intro o st kp k data opts
  constructor
  · intro hg
    refine ⟨?_, ?_, ?_⟩ <;> simp [s3Upload, hg]
  · intro hg
    refine ⟨?_, ?_, ?_, ?_⟩
    · simp [s3Upload, hg]
    · cases hd : o.hedgeDelivered <;> simp [s3Upload, hg, hd]
    · cases hd : o.hedgeDelivered <;> simp [s3Upload, hg, hd]
    · cases hd : o.hedgeDelivered <;> simp [s3Upload, hg, hd]

/-- C9 witness: a fast primary issues no hedge; a slow primary with a
delivered hedge result issues one hedge, returns the hedge's error and
bumps the win counter. -/
theorem c9_hedging_witness :
    (s3Upload ⟨false, false, none, some 5⟩ ⟨[], 0, 0⟩ [] ['k'] [2] none).1.hedgeRequests = 0
    ∧ (s3Upload ⟨false, false, none, some 5⟩ ⟨[], 0, 0⟩ [] ['k'] [2] none).2 = none
    ∧ (s3Upload ⟨true, true, none, some 5⟩ ⟨[], 0, 0⟩ [] ['k'] [2] none).1.hedgeRequests = 1
    ∧ (s3Upload ⟨true, true, none, some 5⟩ ⟨[], 0, 0⟩ [] ['k'] [2] none).2
        = (if true then some 5 else none)
    ∧ ((s3Upload ⟨true, true, none, some 5⟩ ⟨[], 0, 0⟩ [] ['k'] [2] none).1.hedgeWins = 0 + 1
        ↔ true = true) :=
  have hfast := (c9_hedging ⟨false, false, none, some 5⟩ ⟨[], 0, 0⟩ [] ['k'] [2] none).1 rfl
  have hslow := (c9_hedging ⟨true, true, none, some 5⟩ ⟨[], 0, 0⟩ [] ['k'] [2] none).2 rfl
  ⟨hfast.1, hfast.2.2, hslow.1, hslow.2.1, hslow.2.2.1⟩

/-! ## The main loop: per-log outcomes -/

/-- A log whose configuration checks and size verification succeed and
whose `tile` entry, if present, is a directory — i.e. one that cannot
hit `fatalError` in the `main` loop. -/
def cfgOk (l : LogEnv) : Bool :=
  !l.shortName.isEmpty && !l.localDirectory.isEmpty && l.openRootOk && l.sizeRes.isSome &&
    (match l.root.get [tileLit] with
     | some (FSNode.file _) => false
     | _ => true)

theorem processLog_of_cfgOk {l : LogEnv} (hc : cfgOk l = true) :
    ∀ (ctx : Ctx) (fuel : Nat) (m : MSt), ∃ r, processLog ctx fuel m l = some r := by
  intro ctx fuel m
  simp only [cfgOk, Bool.and_eq_true, Bool.not_eq_true'] at hc
  obtain ⟨⟨⟨⟨h1, h2⟩, h3⟩, h4⟩, h5⟩ := hc
  unfold processLog
  simp only [h1, h2, h3, Bool.false_eq_true, if_false, Bool.not_true]
  cases hs : l.sizeRes with
  | none => rw [hs] at h4; cases h4
  | some size =>
    cases hg : l.root.get [tileLit] with
    | none => exact ⟨(m, l.root, false), by simp [hg]⟩
    | some node =>
      cases node with
      | file sz => rw [hg] at h5; cases h5
      | dir levels =>
        refine ⟨?_, ?_⟩
        · exact
            (⟨(runLevels ctx fuel size ⟨l.root, m.removedFiles, m.removedDirs,
                m.removedBytes, m.checks⟩ levels).1.removedFiles,
              (runLevels ctx fuel size ⟨l.root, m.removedFiles, m.removedDirs,
                m.removedBytes, m.checks⟩ levels).1.removedDirs,
              (runLevels ctx fuel size ⟨l.root, m.removedFiles, m.removedDirs,
                m.removedBytes, m.checks⟩ levels).1.removedBytes,
              (runLevels ctx fuel size ⟨l.root, m.removedFiles, m.removedDirs,
                m.removedBytes, m.checks⟩ levels).1.checks⟩,
             (runLevels ctx fuel size ⟨l.root, m.removedFiles, m.removedDirs,
                m.removedBytes, m.checks⟩ levels).1.root,
             (runLevels ctx fuel size ⟨l.root, m.removedFiles, m.removedDirs,
                m.removedBytes, m.checks⟩ levels).2)
        · simp [hg]

theorem runMainLogs_summary :
    ∀ (logs : List LogEnv) (ctx : Ctx) (fuel : Nat) (m : MSt) (ec : Int)
      (acc : List (Name × FSNode)),
      (∀ l ∈ logs, cfgOk l = true) →
      (runMainLogs ctx fuel m ec acc logs).summaryPrinted = true
      ∧ (runMainLogs ctx fuel m ec acc logs).finalRoots.length
          = acc.length + logs.length := by
  intro logs
  induction logs with
  | nil =>
    intro ctx fuel m ec acc _
    exact ⟨rfl, by simp [runMainLogs]⟩
  | cons l rest ih =>
    intro ctx fuel m ec acc hall
    obtain ⟨r, hr⟩ := processLog_of_cfgOk (hall l (List.mem_cons_self l rest)) ctx fuel m
    obtain ⟨m1, root1, failed⟩ := r
    unfold runMainLogs
    rw [hr]
    have hrec := ih ctx fuel m1 (if failed then 1 else ec) ((l.shortName, root1) :: acc)
      (fun l2 hl2 => hall l2 (List.mem_cons_of_mem l hl2))
    refine ⟨hrec.1, ?_⟩
    rw [hrec.2]
    simp only [List.length_cons]
    omega

/-! ## Concrete logs for the main-loop claims -/

/-- A log whose checkpoint verification fails (`logSize` errors). -/
def egLogBad : LogEnv := ⟨['b'], ['d'], true, none, FSNode.dir []⟩

/-- A healthy log of size 1000 with three removable groups. -/
def egLogGood : LogEnv := ⟨['g'], ['d'], true, some 1000, egRoot⟩

/-- A tree whose group `000.p` holds an entry "z" that fails tile-path
parsing, so this log's `cleanDir` returns an error. -/
def egRootBadWidth : FSNode :=
  FSNode.dir [(tileLit, FSNode.dir [(n0, FSNode.dir
    [(n000, FSNode.file 10), (n000p, FSNode.dir [(['z'], FSNode.file 1)])])])]

/-- A log that passes configuration and verification but whose cleaning
pass fails. -/
def egLogFailClean : LogEnv := ⟨['f'], ['d'], true, some 1000, egRootBadWidth⟩

/-- C6 (amended): only failures **inside a log's cleaning pass** are
isolated: when every configured log passes the configuration checks and
the checkpoint verification, the loop reaches every log and the final
summary line always runs (universal part); a log whose `cleanDir`
errors sets exit code 1 and processing continues with the next log,
with the summary printed and the counters reported (second conjunct);
with no failure the exit code is 0 (third conjunct).  Configuration or
verification failures instead call `fatalError`, which exits the whole
process — see the counterexample. -/
theorem c6_per_log_isolation :
    (∀ (logs : List LogEnv) (ctx : Ctx) (fuel : Nat) (m : MSt) (ec : Int)
        (acc : List (Name × FSNode)),
      (∀ l ∈ logs, cfgOk l = true) →
      (runMainLogs ctx fuel m ec acc logs).summaryPrinted = true
      ∧ (runMainLogs ctx fuel m ec acc logs).finalRoots.length
          = acc.length + logs.length)
    ∧ runMain egCtxNone 8 [egLogFailClean, egLogGood]
        = ⟨1, true, [(['f'], egRootBadWidth), (['g'], egRootAfter)], ⟨3, 3, 12, 2⟩⟩
    ∧ runMain egCtxNone 8 [egLogGood]
        = ⟨0, true, [(['g'], egRootAfter)], ⟨3, 3, 12, 1⟩⟩ :=
  ⟨fun logs ctx fuel m ec acc hall => runMainLogs_summary logs ctx fuel m ec acc hall,
   rfl, rfl⟩

/-- C6 witness: the universal part on the single healthy log. -/
theorem c6_per_log_isolation_witness :
    (∀ l ∈ [egLogGood], cfgOk l = true)
    ∧ (runMainLogs egCtxNone 8 ⟨0, 0, 0, 0⟩ 0 [] [egLogGood]).summaryPrinted = true
    ∧ (runMainLogs egCtxNone 8 ⟨0, 0, 0, 0⟩ 0 [] [egLogGood]).finalRoots.length
        = List.length ([] : List (Name × FSNode)) + 1 :=
  have h9 := c6_per_log_isolation.1 [egLogGood] egCtxNone 8 ⟨0, 0, 0, 0⟩ 0 []
    (by decide)
  ⟨by decide, h9.1, h9.2⟩

/-- C6 counterexample: a checkpoint-verification failure on the first
log (`sizeRes = none`, the `logSize` error) makes `main` call
`fatalError`: the process exits with status 1, the second — perfectly
healthy and compactable — log is never processed, and the final
removed-files summary line never runs; the claim's "processing
continues with the next log" and "summary reported regardless" are both
false.  (Alone, the second log is processed and compacted.) -/
theorem c6_per_log_isolation_counterexample :
    runMain egCtxNone 8 [egLogBad, egLogGood] = ⟨1, false, [], ⟨0, 0, 0, 0⟩⟩
    ∧ runMain egCtxNone 8 [egLogGood]
        = ⟨0, true, [(['g'], egRootAfter)], ⟨3, 3, 12, 1⟩⟩ :=
  ⟨rfl, rfl⟩
